import Mathlib

/-
Verification of the model-download script (scripts/download_models.py).

Strings are modelled as lists of characters.  Paths are flat strings; the
helpers below reproduce the behaviour of Python's str.split("/"),
"/".join(...), str.replace(old, new) and pathlib.PurePath.with_suffix that
the script relies on.  The model catalog (module ai_diffusion.resources) is
not part of the sources; following the specification it is treated as an
opaque registry of model entries with id / name / architecture / kind /
files, passed in as an explicit parameter.
-/

namespace KritaModels

/-- Python str.split("/") specialised to character lists. -/
def splitOnSlash : List Char → List (List Char)
  | [] => [[]]
  | c :: rest =>
    match splitOnSlash rest with
    | [] => [[c]]
    | h :: t => if c = '/' then [] :: h :: t else (c :: h) :: t

/-- Python "/".join(...) specialised to character lists. -/
def joinSlash : List (List Char) → List Char
  | [] => []
  | [x] => x
  | x :: y :: t => x ++ '/' :: joinSlash (y :: t)

/-- Index of the last occurrence of a dot in a file name, if any. -/
def rfindDot : List Char → Option Nat
  | [] => none
  | c :: rest =>
    match rfindDot rest with
    | some i => some (i + 1)
    | none => if c = '.' then some 0 else none

/-- Python PurePath.suffix of a file NAME: the part from the last dot,
provided that dot is neither the first nor the last character. -/
def pySuffix (name : List Char) : List Char :=
  match rfindDot name with
  | none => []
  | some i => if 0 < i ∧ i < name.length - 1 then name.drop i else []

/-- Python PurePath.with_suffix applied to a file NAME: the old suffix (if
any) is removed and the new one appended. -/
def withSuffixName (name suf : List Char) : List Char :=
  if pySuffix name = [] then name ++ suf
  else name.take (name.length - (pySuffix name).length) ++ suf

/-- Python PurePath.with_suffix on a whole path: only the last component
(the file name) is rewritten. -/
def pathWithSuffix (p suf : List Char) : List Char :=
  joinSlash ((splitOnSlash p).dropLast ++ [withSuffixName ((splitOnSlash p).getLastD []) suf])

/-- Suffix (extension) of the last component of a path. -/
def pathSuffix (p : List Char) : List Char :=
  pySuffix ((splitOnSlash p).getLastD [])

/-- The characters of ".part", the reserved extension for temporary files. -/
def partExt : List Char := ['.', 'p', 'a', 'r', 't']

/-- target_file.with_suffix(".part") from the download function. -/
def tempPath (target : List Char) : List Char := pathWithSuffix target partExt

/-- destination / file.path (pathlib join of root and relative path). -/
def joinPath (dest rel : List Char) : List Char := dest ++ '/' :: rel

/-- One scan step of Python str.replace: at each position, if the pattern
matches, emit the replacement and jump over the match, else keep the
character.  Fuel bounds the recursion; `s.length` fuel is always enough
for a non-empty pattern. -/
def replaceFuel (old new : List Char) : Nat → List Char → List Char
  | 0, s => s
  | _ + 1, [] => []
  | fuel + 1, c :: cs =>
    if old <+: (c :: cs) then new ++ replaceFuel old new fuel ((c :: cs).drop old.length)
    else c :: replaceFuel old new fuel cs

/-- Python str.replace(old, new): every non-overlapping occurrence of
`old` in `s`, scanning left to right, is replaced by `new`. -/
def pyReplace (s old new : List Char) : List Char :=
  if old = [] then new ++ s.foldr (fun c acc => c :: (new ++ acc)) []
  else replaceFuel old new s.length s

/-- "/".join(url.split("/")[:3]) — the scheme+host+port part of a URL. -/
def urlHead (url : List Char) : List Char :=
  joinSlash ((splitOnSlash url).take 3)

/-- _map_url: if the AI_DIFFUSION_DOWNLOAD_URL environment variable is set
(and non-empty, since Python tests its truthiness), every occurrence of
the scheme+host+port part of the URL is replaced by the override. -/
def map_url (replaceHost : Option (List Char)) (url : List Char) : List Char :=
  match replaceHost with
  | none => url
  | some h => if h = [] then url else pyReplace url (urlHead url) h

/-- Architecture tags of the catalog (ai_diffusion.resources.Arch members
used by the script). -/
inductive Arch
  | all
  | sd15
  | sdxl
  | flux
  | illu
  | illu_v
deriving DecidableEq

/-- Resource kinds of the catalog used by the script. -/
inductive ResourceKind
  | checkpoint
  | upscaler
  | controlnet
  | ip_adapter
  | clip_vision
  | other
deriving DecidableEq

/-- A remote file of a model: URL plus relative destination path. -/
structure FileResource where
  url : List Char
  path : List Char
deriving DecidableEq

/-- Identifier of a model: the short identifier used by --checkpoint and
the full id string used by the exclusion list. -/
structure ModelId where
  identifier : List Char
  string : List Char
deriving DecidableEq

/-- A catalog entry (ai_diffusion.resources.ModelResource). -/
structure ModelResource where
  id : ModelId
  name : List Char
  arch : Arch
  kind : ResourceKind
  files : List FileResource
deriving DecidableEq

/-- The model catalog.  Modelled from the spec: the registry lives in
ai_diffusion.resources, outside these sources; the spec describes it as
convenience groupings (required, default checkpoints, optional,
upscale, prefetch, deprecated models) consumed read-only. -/
structure Catalog where
  required_models : List ModelResource
  default_checkpoints : List ModelResource
  optional_models : List ModelResource
  upscale_models : List ModelResource
  prefetch_models : List ModelResource
  deprecated_models : List ModelResource

/-- The keyword arguments of main that drive the selection. -/
structure Flags where
  sd15 : Bool
  sdxl : Bool
  flux : Bool
  illu : Bool
  upscalers : Bool
  checkpoints : List (List Char)
  controlnet : Bool
  prefetch : Bool
  deprecated : Bool
  minimal : Bool
  recommended : Bool
  all : Bool
  exclude : List (List Char)

def boolNat (b : Bool) : Nat := if b then 1 else 0

/-- The `versions` list built at the top of main (lines 130-139). -/
def archVersions (f : Flags) : List Arch :=
  [Arch.all]
    ++ (if f.sd15 || f.minimal || f.all then [Arch.sd15] else [])
    ++ (if f.sdxl || f.recommended || f.all then [Arch.sdxl] else [])
    ++ (if f.flux then [Arch.flux] else [])
    ++ (if f.illu || f.all then [Arch.illu, Arch.illu_v] else [])

def adapterKinds : List ResourceKind :=
  [ResourceKind.controlnet, ResourceKind.ip_adapter, ResourceKind.clip_vision]

/-- models.add(default_checkpoints[0]) guarded by the minimal flag; the
head is only taken when the flag is set (empty catalog list is handled
by `select`). -/
def minimalAdd (p : Bool) (l : List ModelResource) (s : Finset ModelResource) :
    Finset ModelResource :=
  match l.head? with
  | some c => if p then insert c s else s
  | none => s

/-- A guarded set update: models.update(t) executed when `c` holds. -/
def condUnion (c : Prop) [Decidable c] (s t : Finset ModelResource) :
    Finset ModelResource :=
  if c then s ∪ t else s

/-- The set of models accumulated by main lines 143-162 (one guarded set
update per source statement, plus the final exclusion difference). -/
def selectSet (cat : Catalog) (f : Flags) : Finset ModelResource :=
  let v := archVersions f
  let s := cat.default_checkpoints.toFinset.filter
    (fun m => f.all = true ∨ m.id.identifier ∈ f.checkpoints)
  let s := condUnion (f.minimal || f.recommended || f.all || f.sd15 || f.sdxl) s
    (cat.required_models.toFinset.filter (fun m => m.arch ∈ v))
  let s := minimalAdd f.minimal cat.default_checkpoints s
  let s := condUnion f.recommended s
    (cat.default_checkpoints.toFinset.filter (fun m => m.arch = Arch.sdxl))
  let s := condUnion (f.upscalers || f.recommended || f.all) s
    (cat.required_models.toFinset.filter (fun m => m.kind = ResourceKind.upscaler))
  let s := condUnion (f.upscalers || f.recommended || f.all) s cat.upscale_models.toFinset
  let s := condUnion (f.controlnet || f.recommended || f.all) s
    (cat.optional_models.toFinset.filter (fun m => m.kind ∈ adapterKinds ∧ m.arch ∈ v))
  let s := condUnion (f.prefetch || f.all) s cat.prefetch_models.toFinset
  let s := condUnion f.deprecated s
    (cat.deprecated_models.toFinset.filter (fun m => m.arch ∈ v))
  s.filter (fun m => m.id.string ∉ f.exclude)

/-- The selection computed by main.  `none` covers the two failure modes
that abort before any download: the assertion that at most one of
minimal / recommended / all is set (line 126), and the IndexError of
default_checkpoints[0] when minimal is set on an empty checkpoint
list (line 148). -/
def select (cat : Catalog) (f : Flags) : Option (Finset ModelResource) :=
  if boolNat f.minimal + boolNat f.recommended + boolNat f.all > 1 then none
  else if f.minimal ∧ cat.default_checkpoints = [] then none
  else some (selectSet cat f)

/-- Expansion of the bulk --checkpoints flag performed in __main__
(lines 215-224): for each architecture flag also set, the identifiers of
that architecture's default checkpoints are appended. -/
def expandCheckpoints (cat : Catalog) (checkpointList : List (List Char))
    (checkpointsFlag sd15 sdxl flux illu : Bool) : List (List Char) :=
  let c := checkpointList
  let c := if checkpointsFlag && sd15 then
    c ++ (cat.default_checkpoints.filter (fun m => m.arch == Arch.sd15)).map
      (fun m => m.id.identifier) else c
  let c := if checkpointsFlag && sdxl then
    c ++ (cat.default_checkpoints.filter (fun m => m.arch == Arch.sdxl)).map
      (fun m => m.id.identifier) else c
  let c := if checkpointsFlag && flux then
    c ++ (cat.default_checkpoints.filter (fun m => m.arch == Arch.flux)).map
      (fun m => m.id.identifier) else c
  let c := if checkpointsFlag && illu then
    c ++ (cat.default_checkpoints.filter (fun m => m.arch == Arch.illu)).map
      (fun m => m.id.identifier)
      ++ (cat.default_checkpoints.filter (fun m => m.arch == Arch.illu_v)).map
      (fun m => m.id.identifier) else c
  c

/-- Flags with nothing set: the defaults of main's keyword arguments. -/
def noFlags : Flags :=
  { sd15 := false, sdxl := false, flux := false, illu := false, upscalers := false,
    checkpoints := [], controlnet := false, prefetch := false, deprecated := false,
    minimal := false, recommended := false, all := false, exclude := [] }

/-- Flags for a run with --all and a given exclusion list. -/
def allFlags (ex : List (List Char)) : Flags :=
  { noFlags with all := true, exclude := ex }

/-- Flags for a run with --minimal only. -/
def minimalFlags : Flags := { noFlags with minimal := true }

/-- What the network does for one requested URL: a non-success HTTP
status (resp.raise_for_status raises), an exception while streaming the
body, or full successful receipt. -/
inductive NetOutcome
  | httpError
  | streamError
  | success
deriving DecidableEq

/-- The exception escaping the per-file loop of `download`. -/
inductive DLError
  | httpStatus
  | streamFail
deriving DecidableEq

/-- Observable state of a download run: the set of files present on disk
(directories are ignored) and the number of HTTP requests issued. -/
structure DLState where
  fs : List (List Char)
  requests : Nat
deriving DecidableEq

/-- Create a file if not already present (set insertion). -/
def fsInsert (p : List Char) (fs : List (List Char)) : List (List Char) :=
  if p ∈ fs then fs else p :: fs

/-- The body of the per-file loop of `download` (lines 82-101): skip when
the target exists; in dry-run mode only directories are created; else
issue the request, and on success write the temporary ".part" file and
rename it onto the target.  The second component is the exception, if
one was raised; the state records the side effects up to that point. -/
def downloadFile (net : List Char → NetOutcome) (env : Option (List Char))
    (dest : List Char) (dryRun : Bool) (s : DLState) (f : FileResource) :
    DLState × Option DLError :=
  let target := joinPath dest f.path
  let url := map_url env f.url
  if target ∈ s.fs then (s, none)
  else if dryRun then (s, none)
  else
    match net url with
    | NetOutcome.httpError => ({ fs := s.fs, requests := s.requests + 1 }, some DLError.httpStatus)
    | NetOutcome.streamError =>
      ({ fs := fsInsert (tempPath target) s.fs, requests := s.requests + 1 },
        some DLError.streamFail)
    | NetOutcome.success =>
      ({ fs := fsInsert target ((fsInsert (tempPath target) s.fs).erase (tempPath target)),
         requests := s.requests + 1 }, none)

/-- The per-model `download` function: its files in order, stopping at the
first exception. -/
def download (net : List Char → NetOutcome) (env : Option (List Char))
    (dest : List Char) (dryRun : Bool) :
    List FileResource → DLState → DLState × Option DLError
  | [], s => (s, none)
  | f :: rest, s =>
    match downloadFile net env dest dryRun s f with
    | (s1, none) => download net env dest dryRun rest s1
    | (s1, some e) => (s1, some e)

/-- The exception escaping download_with_retry: either a download
exception re-raised from the except block, or the RuntimeError of the
for-else clause. -/
inductive RetryErr
  | reraised (e : DLError)
  | runtimeError
deriving DecidableEq

/-- The retry loop of download_with_retry (lines 62-72), with the network
behaviour indexed by attempt number.  On success the loop breaks; on an
exception, if continue_on_error is not set the exception is re-raised at
once, otherwise the next attempt runs; when attempts are exhausted the
for-else clause raises RuntimeError unless continue_on_error is set. -/
def retryLoop (net : Nat → List Char → NetOutcome) (env : Option (List Char))
    (dest : List Char) (dryRun : Bool) (files : List FileResource)
    (continueOnError : Bool) : Nat → Nat → DLState → DLState × Option RetryErr
  | _, 0, s => if continueOnError then (s, none) else (s, some RetryErr.runtimeError)
  | attempt, rem + 1, s =>
    match download (net attempt) env dest dryRun files s with
    | (s1, none) => (s1, none)
    | (s1, some e) =>
      if continueOnError then
        retryLoop net env dest dryRun files continueOnError (attempt + 1) rem s1
      else (s1, some (RetryErr.reraised e))

/-- download_with_retry (lines 53-72). -/
def download_with_retry (net : Nat → List Char → NetOutcome)
    (env : Option (List Char)) (dest : List Char) (dryRun : Bool)
    (files : List FileResource) (retryAttempts : Nat) (continueOnError : Bool)
    (s : DLState) : DLState × Option RetryErr :=
  retryLoop net env dest dryRun files continueOnError 0 retryAttempts s

/-- The architecture tags activated by the --all preset. -/
def archAllList : List Arch := [Arch.all, Arch.sd15, Arch.sdxl, Arch.illu, Arch.illu_v]

/-- A catalog entry with a given identifier, architecture and kind, for
concrete test catalogs. -/
def mkModel (ident : List Char) (a : Arch) (k : ResourceKind) : ModelResource :=
  { id := { identifier := ident, string := ident }, name := ident, arch := a, kind := k,
    files := [] }

def emptyCatalog : Catalog :=
  { required_models := [], default_checkpoints := [], optional_models := [],
    upscale_models := [], prefetch_models := [], deprecated_models := [] }

def mFluxReq : ModelResource := mkModel ("fx".toList) Arch.flux ResourceKind.other

def mDepAll : ModelResource := mkModel ("dp".toList) Arch.all ResourceKind.other

def mSd15 : ModelResource := mkModel ("sd".toList) Arch.sd15 ResourceKind.other

def mArchAll : ModelResource := mkModel ("qa".toList) Arch.all ResourceKind.other

def mSdxl : ModelResource := mkModel ("xl".toList) Arch.sdxl ResourceKind.other

def ck0 : ModelResource := mkModel ("c0".toList) Arch.sd15 ResourceKind.checkpoint

def mExcl : ModelResource := mkModel ("ex".toList) Arch.sd15 ResourceKind.checkpoint

def mKeep : ModelResource := mkModel ("kp".toList) Arch.sdxl ResourceKind.checkpoint

def catFluxDep : Catalog :=
  { emptyCatalog with required_models := [mFluxReq], deprecated_models := [mDepAll] }

def catDep : Catalog := { emptyCatalog with deprecated_models := [mDepAll] }

def catSd : Catalog := { emptyCatalog with required_models := [mSd15] }

def catMin : Catalog :=
  { emptyCatalog with
    default_checkpoints := [ck0]
    required_models := [mArchAll, mSd15, mSdxl] }

def catEx : Catalog := { emptyCatalog with default_checkpoints := [mExcl, mKeep] }

def depFlags : Flags := { noFlags with deprecated := true }

def sd15Flags : Flags := { noFlags with sd15 := true }

def dDest : List Char := "d".toList

def uBin : List Char := "u".toList

def fBin : FileResource := { url := uBin, path := ("m.bin".toList) }

def fPart : FileResource := { url := uBin, path := ("m.part".toList) }

def fAPart : FileResource := { url := uBin, path := ("a.part".toList) }

def fABin : FileResource := { url := uBin, path := ("a.bin".toList) }

def st0 : DLState := { fs := [], requests := 0 }

def netOK : List Char → NetOutcome := fun _ => NetOutcome.success

def netSE : List Char → NetOutcome := fun _ => NetOutcome.streamError

/-- Network that fails while streaming on the first attempt and would
succeed on every later attempt. -/
def netFailThenOK : Nat → List Char → NetOutcome :=
  fun attempt _ => if attempt = 0 then NetOutcome.streamError else NetOutcome.success

/-- State in which fBin's target is already present. -/
def stHas : DLState := { fs := [("d/m.bin".toList)], requests := 0 }

/-- State after successfully downloading fBin into an empty tree. -/
def stDone : DLState := { fs := [("d/m.bin".toList)], requests := 1 }

/-- A model whose two files collide: the temporary path of "a.bin" is the
target path of "a.part". -/
def files2 : List FileResource := [fAPart, fABin]

/-- State after a successful first run over files2. -/
def stFiles2 : DLState := { fs := [("d/a.bin".toList)], requests := 2 }

/-- State after the failed first attempt of the retry scenario. -/
def stAfterFail : DLState := { fs := [("d/m.part".toList)], requests := 1 }

/-- State after the retry scenario when a second attempt runs. -/
def stAfterRetry : DLState := { fs := [("d/m.bin".toList)], requests := 2 }

def hostB : List Char := "http://b".toList

def urlRep : List Char := "https://a/https://a".toList

def urlRepOut : List Char := "http://b/http://b".toList

def restRep : List Char := "/https://a".toList

def urlEx : List Char := "https://example.com/x.bin".toList

def restEx : List Char := "/x.bin".toList

theorem mem_condUnion {c : Prop} [Decidable c] {s t : Finset ModelResource}
    {m : ModelResource} : m ∈ condUnion c s t ↔ m ∈ s ∨ (c ∧ m ∈ t) := by
  unfold condUnion
  split_ifs with h
  · simp [Finset.mem_union, h]
  · simp [h]

theorem mem_minimalAdd {p : Bool} {l : List ModelResource} {s : Finset ModelResource}
    {m : ModelResource} : m ∈ minimalAdd p l s ↔ m ∈ s ∨ (p = true ∧ l.head? = some m) := by
  cases l with
  | nil => simp [minimalAdd]
  | cons c t =>
    cases p with
    | false => simp [minimalAdd]
    | true => simp [minimalAdd, Finset.mem_insert, eq_comm, or_comm]

/-- Membership in the accumulated selection, one disjunct per update
statement of main lines 143-160, with the final exclusion filter. -/
theorem mem_selectSet {cat : Catalog} {f : Flags} {m : ModelResource} :
    m ∈ selectSet cat f ↔
      (((((((((m ∈ cat.default_checkpoints ∧ (f.all = true ∨ m.id.identifier ∈ f.checkpoints))
      ∨ ((f.minimal || f.recommended || f.all || f.sd15 || f.sdxl) = true ∧
          m ∈ cat.required_models ∧ m.arch ∈ archVersions f))
      ∨ (f.minimal = true ∧ cat.default_checkpoints.head? = some m))
      ∨ (f.recommended = true ∧ m ∈ cat.default_checkpoints ∧ m.arch = Arch.sdxl))
      ∨ ((f.upscalers || f.recommended || f.all) = true ∧
          m ∈ cat.required_models ∧ m.kind = ResourceKind.upscaler))
      ∨ ((f.upscalers || f.recommended || f.all) = true ∧ m ∈ cat.upscale_models))
      ∨ ((f.controlnet || f.recommended || f.all) = true ∧
          m ∈ cat.optional_models ∧ m.kind ∈ adapterKinds ∧ m.arch ∈ archVersions f))
      ∨ ((f.prefetch || f.all) = true ∧ m ∈ cat.prefetch_models))
      ∨ (f.deprecated = true ∧ m ∈ cat.deprecated_models ∧ m.arch ∈ archVersions f))
      ∧ m.id.string ∉ f.exclude := by
  unfold selectSet
  simp only [Finset.mem_filter, mem_condUnion, mem_minimalAdd, List.mem_toFinset]

/-- When `select` succeeds, the result is `selectSet`. -/
theorem select_eq_some {cat : Catalog} {f : Flags} {s : Finset ModelResource}
    (h : select cat f = some s) : s = selectSet cat f := by
  unfold select at h
  split_ifs at h
  exact (Option.some.inj h).symm

theorem archVersions_allFlags (ex : List (List Char)) :
    archVersions (allFlags ex) = archAllList := rfl

/-- Without the flux flag, every active architecture tag is among the
tags activated by --all. -/
theorem archVersions_sub (f : Flags) (hflux : f.flux = false) :
    ∀ a ∈ archVersions f, a ∈ archAllList := by
  intro a ha
  unfold archVersions at ha
  rw [hflux] at ha
  split_ifs at ha <;> simp_all [archAllList] <;> tauto

/- Path and url helper lemmas. -/

theorem joinSlash_cons_cons (c : Char) (a : List Char) (t : List (List Char)) :
    joinSlash ((c :: a) :: t) = c :: joinSlash (a :: t) := by
  cases t <;> rfl

theorem splitOnSlash_ne_nil (p : List Char) : splitOnSlash p ≠ [] := by
  cases p with
  | nil => simp [splitOnSlash]
  | cons c rest =>
    cases h : splitOnSlash rest with
    | nil => simp [splitOnSlash, h]
    | cons a t =>
      simp only [splitOnSlash, h]
      split_ifs <;> simp

theorem joinSlash_splitOnSlash (p : List Char) : joinSlash (splitOnSlash p) = p := by
  induction p with
  | nil => rfl
  | cons c rest ih =>
    cases h : splitOnSlash rest with
    | nil => exact absurd h (splitOnSlash_ne_nil rest)
    | cons a t =>
      rw [h] at ih
      by_cases hc : c = '/'
      · simp only [splitOnSlash, h, if_pos hc]
        subst hc
        cases t <;> simpa [joinSlash] using congrArg (fun l => '/' :: l) ih
      · simp only [splitOnSlash, h, if_neg hc]
        rw [joinSlash_cons_cons, ih]

theorem joinSlash_append_singleton (A : List (List Char)) (x : List Char) (hA : A ≠ []) :
    joinSlash (A ++ [x]) = joinSlash A ++ '/' :: x := by
  induction A with
  | nil => exact absurd rfl hA
  | cons a t ih =>
    cases t with
    | nil => rfl
    | cons b t2 =>
      have : joinSlash (a :: (b :: t2) ++ [x]) = a ++ '/' :: joinSlash ((b :: t2) ++ [x]) := rfl
      rw [this, ih (by simp), joinSlash]
      simp

theorem pySuffix_eq_none {nm : List Char} (hr : rfindDot nm = none) :
    pySuffix nm = [] := by
  unfold pySuffix
  rw [hr]

theorem pySuffix_eq_some {nm : List Char} {i : Nat} (hr : rfindDot nm = some i) :
    pySuffix nm = if 0 < i ∧ i < nm.length - 1 then nm.drop i else [] := by
  unfold pySuffix
  rw [hr]

/-- The decomposition of a file name into its stem and its non-empty
Python suffix. -/
theorem pySuffix_append_eq (nm : List Char) (h : pySuffix nm ≠ []) :
    nm.take (nm.length - (pySuffix nm).length) ++ pySuffix nm = nm := by
  cases hr : rfindDot nm with
  | none => exact absurd (pySuffix_eq_none hr) h
  | some i =>
    rw [pySuffix_eq_some hr] at h ⊢
    split_ifs at h ⊢ with hcond
    · have hi : i ≤ nm.length := by omega
      rw [List.length_drop]
      rw [show nm.length - (nm.length - i) = i by omega]
      exact List.take_append_drop i nm
    · exact absurd rfl h

theorem withSuffixName_ne (nm : List Char) (h : pySuffix nm ≠ partExt) :
    withSuffixName nm partExt ≠ nm := by
  unfold withSuffixName
  split_ifs with h0
  · intro hEq
    have := congrArg List.length hEq
    simp [partExt] at this
  · intro hEq
    have hdecomp := pySuffix_append_eq nm h0
    have h2 : nm.take (nm.length - (pySuffix nm).length) ++ partExt
        = nm.take (nm.length - (pySuffix nm).length) ++ pySuffix nm := hEq.trans hdecomp.symm
    exact h (List.append_cancel_left h2).symm

/-- Whenever the target's extension is not already ".part", the
temporary path differs from the target path. -/
theorem tempPath_ne (p : List Char) (h : pathSuffix p ≠ partExt) : tempPath p ≠ p := by
  unfold pathSuffix at h
  intro hEq
  unfold tempPath pathWithSuffix at hEq
  have hne := splitOnSlash_ne_nil p
  have hgl : (splitOnSlash p).getLastD [] = (splitOnSlash p).getLast hne := by
    rw [List.getLastD_eq_getLast?, List.getLast?_eq_getLast _ hne]
    rfl
  have hp : joinSlash (splitOnSlash p) = p := joinSlash_splitOnSlash p
  set nm := (splitOnSlash p).getLastD [] with hnm
  set D := (splitOnSlash p).dropLast with hD
  have hw := withSuffixName_ne nm h
  have hsplit : D ++ [nm] = splitOnSlash p := by
    rw [hgl, hD]
    exact List.dropLast_append_getLast hne
  clear_value nm D
  rw [← hsplit] at hp
  cases D with
  | nil =>
    simp only [List.nil_append, joinSlash] at hEq hp
    exact hw (hEq.trans hp.symm)
  | cons a A =>
    rw [joinSlash_append_singleton _ _ (by simp)] at hEq hp
    have h3 := List.append_cancel_left (hEq.trans hp.symm)
    exact hw (by injection h3)

theorem mem_fsInsert {p q : List Char} {l : List (List Char)} :
    p ∈ fsInsert q l ↔ p = q ∨ p ∈ l := by
  unfold fsInsert
  split_ifs with hq
  · constructor
    · exact Or.inr
    · rintro (rfl | h2)
      · exact hq
      · exact h2
  · simp [List.mem_cons]

theorem downloadFile_eq_skip (net : List Char → NetOutcome) (env : Option (List Char))
    (dest : List Char) (dr : Bool) (s : DLState) (f : FileResource)
    (h : joinPath dest f.path ∈ s.fs) :
    downloadFile net env dest dr s f = (s, none) := by
  simp only [downloadFile]
  rw [if_pos h]

theorem downloadFile_eq_dry (net : List Char → NetOutcome) (env : Option (List Char))
    (dest : List Char) (s : DLState) (f : FileResource)
    (h : joinPath dest f.path ∉ s.fs) :
    downloadFile net env dest true s f = (s, none) := by
  simp only [downloadFile]
  rw [if_neg h]
  simp

theorem downloadFile_eq_net (net : List Char → NetOutcome) (env : Option (List Char))
    (dest : List Char) (s : DLState) (f : FileResource)
    (h : joinPath dest f.path ∉ s.fs) :
    downloadFile net env dest false s f =
      (match net (map_url env f.url) with
       | NetOutcome.httpError =>
          ({ fs := s.fs, requests := s.requests + 1 }, some DLError.httpStatus)
       | NetOutcome.streamError =>
          ({ fs := fsInsert (tempPath (joinPath dest f.path)) s.fs,
             requests := s.requests + 1 }, some DLError.streamFail)
       | NetOutcome.success =>
          ({ fs := fsInsert (joinPath dest f.path)
               ((fsInsert (tempPath (joinPath dest f.path)) s.fs).erase
                 (tempPath (joinPath dest f.path))),
             requests := s.requests + 1 }, none)) := by
  simp only [downloadFile]
  rw [if_neg h]
  simp

/-- A file present on disk survives the processing of any other file
whose temporary path is different (a successful rename erases only its
own temporary path). -/
theorem downloadFile_preserves (net : List Char → NetOutcome) (env : Option (List Char))
    (dest : List Char) (dr : Bool) (s : DLState) (f : FileResource) (p : List Char)
    (hp : p ∈ s.fs) (hne : tempPath (joinPath dest f.path) ≠ p) :
    p ∈ (downloadFile net env dest dr s f).1.fs := by
  by_cases h1 : joinPath dest f.path ∈ s.fs
  · rw [downloadFile_eq_skip net env dest dr s f h1]
    exact hp
  · cases dr with
    | true =>
      rw [downloadFile_eq_dry net env dest s f h1]
      exact hp
    | false =>
      rw [downloadFile_eq_net net env dest s f h1]
      cases net (map_url env f.url) with
      | httpError => exact hp
      | streamError => exact mem_fsInsert.mpr (Or.inr hp)
      | success =>
        refine mem_fsInsert.mpr (Or.inr ?_)
        rw [List.mem_erase_of_ne (fun hc => hne hc.symm)]
        exact mem_fsInsert.mpr (Or.inr hp)

/-- When the per-file step raises no exception (outside dry-run mode),
the target file exists afterwards. -/
theorem downloadFile_target_mem (net : List Char → NetOutcome) (env : Option (List Char))
    (dest : List Char) (s : DLState) (f : FileResource)
    (h : (downloadFile net env dest false s f).2 = none) :
    joinPath dest f.path ∈ (downloadFile net env dest false s f).1.fs := by
  by_cases h1 : joinPath dest f.path ∈ s.fs
  · rw [downloadFile_eq_skip net env dest false s f h1]
    exact h1
  · rw [downloadFile_eq_net net env dest s f h1] at h ⊢
    cases hn : net (map_url env f.url) with
    | httpError => rw [hn] at h; simp at h
    | streamError => rw [hn] at h; simp at h
    | success => exact mem_fsInsert.mpr (Or.inl rfl)

/-- Files present on disk survive a whole per-model download run, as
long as no processed file has their path as its temporary path. -/
theorem download_preserves (net : List Char → NetOutcome) (env : Option (List Char))
    (dest : List Char) (p : List Char) :
    ∀ (files : List FileResource) (s s1 : DLState) (r : Option DLError),
    p ∈ s.fs → (∀ g ∈ files, tempPath (joinPath dest g.path) ≠ p) →
    download net env dest false files s = (s1, r) → p ∈ s1.fs := by
  intro files
  induction files with
  | nil =>
    intro s s1 r hp _ hrun
    cases hrun
    exact hp
  | cons f rest ih =>
    intro s s1 r hp hH hrun
    unfold download at hrun
    cases hf : downloadFile net env dest false s f with
    | mk sa e =>
      have hpa : p ∈ sa.fs := by
        have := downloadFile_preserves net env dest false s f p hp
          (hH f (List.mem_cons_self f rest))
        rwa [hf] at this
      rw [hf] at hrun
      cases e with
      | none =>
        exact ih sa s1 r hpa (fun g hg => hH g (List.mem_cons_of_mem f hg)) hrun
      | some e0 =>
        cases hrun
        exact hpa

/-- After a successful per-model run with collision-free temporary
paths, every file's target exists. -/
theorem download_targets_present (net : List Char → NetOutcome) (env : Option (List Char))
    (dest : List Char) :
    ∀ (files : List FileResource) (s s1 : DLState),
    (∀ f ∈ files, ∀ g ∈ files, tempPath (joinPath dest g.path) ≠ joinPath dest f.path) →
    download net env dest false files s = (s1, none) →
    ∀ f ∈ files, joinPath dest f.path ∈ s1.fs := by
  intro files
  induction files with
  | nil =>
    intro s s1 _ _ f hf
    exact absurd hf (List.not_mem_nil f)
  | cons f rest ih =>
    intro s s1 hH hrun g hg
    unfold download at hrun
    cases hf : downloadFile net env dest false s f with
    | mk sa e =>
      rw [hf] at hrun
      cases e with
      | some e0 => cases hrun
      | none =>
        rcases List.mem_cons.mp hg with rfl | hg2
        · have hmem := downloadFile_target_mem net env dest s g (by rw [hf])
          rw [hf] at hmem
          exact download_preserves net env dest _ rest sa s1 none hmem
            (fun g2 hg2 => hH g (List.mem_cons_self g rest) g2 (List.mem_cons_of_mem g hg2))
            hrun
        · exact ih sa s1
            (fun a ha b hb =>
              hH a (List.mem_cons_of_mem f ha) b (List.mem_cons_of_mem f hb)) hrun g hg2

/-- When every target already exists, a run changes nothing. -/
theorem download_all_skip (net : List Char → NetOutcome) (env : Option (List Char))
    (dest : List Char) (dr : Bool) :
    ∀ (files : List FileResource) (s : DLState),
    (∀ f ∈ files, joinPath dest f.path ∈ s.fs) →
    download net env dest dr files s = (s, none) := by
  intro files
  induction files with
  | nil => intro s _; rfl
  | cons f rest ih =>
    intro s hall
    unfold download
    have hskip : downloadFile net env dest dr s f = (s, none) := by
      unfold downloadFile
      rw [if_pos (hall f (List.mem_cons_self f rest))]
    rw [hskip]
    exact ih s (fun g hg => hall g (List.mem_cons_of_mem f hg))

/-- A pattern that occurs nowhere in the text is not replaced. -/
theorem replaceFuel_no_occurrence (old new : List Char) :
    ∀ (fuel : Nat) (s : List Char), ¬ old <:+: s → replaceFuel old new fuel s = s := by
  intro fuel
  induction fuel with
  | zero => intro s _; rfl
  | succ n ih =>
    intro s hs
    cases s with
    | nil => rfl
    | cons c cs =>
      simp only [replaceFuel]
      rw [if_neg (fun hpre => hs hpre.isInfix)]
      rw [ih cs (fun hin => hs (List.infix_cons hin))]

/-- Replacing the pattern in `old ++ rest` when the pattern occurs
nowhere in `rest`: only the front occurrence is rewritten. -/
theorem pyReplace_head (old rest new : List Char) (hne : old ≠ [])
    (hni : ¬ old <:+: rest) : pyReplace (old ++ rest) old new = new ++ rest := by
  unfold pyReplace
  rw [if_neg hne]
  cases old with
  | nil => exact absurd rfl hne
  | cons o os =>
    have hsh : (o :: os) ++ rest = o :: (os ++ rest) := rfl
    rw [hsh]
    have hlen : (o :: (os ++ rest)).length = (os ++ rest).length + 1 := by simp
    rw [hlen]
    simp only [replaceFuel]
    rw [if_pos ⟨rest, rfl⟩]
    have hdrop : (o :: (os ++ rest)).drop (o :: os).length = rest := by
      simp only [List.length_cons, List.drop_succ_cons]
      exact List.drop_left os rest
    rw [hdrop, replaceFuel_no_occurrence (o :: os) new _ rest hni]

/- Claims. -/

/-- C1: the claim says that with retry_attempts = N, a model download
failing on the first N-1 attempts and succeeding on attempt N succeeds
overall even when continue_on_error is false.  The code instead
re-raises the first exception at once when continue_on_error is false
(the except block runs `if not continue_on_error: raise`), so no retry
ever happens in that mode: with N = 2 and a network that fails on
attempt 0 and would succeed on attempt 1, the run raises after one
request, while with continue_on_error = true the second attempt runs
and the download completes. -/
theorem retry_first_error_reraised :
    download_with_retry netFailThenOK none dDest false [fBin] 2 false st0
      = (stAfterFail, some (RetryErr.reraised DLError.streamFail)) ∧
    download_with_retry netFailThenOK none dDest false [fBin] 2 true st0
      = (stAfterRetry, none) := by
  decide

/-- C2 counterexample: under --all the flux architecture tag is not
activated and deprecated models are not included; a catalog holding one
required flux model and one deprecated wildcard model yields the empty
selection. -/
theorem all_preset_cex :
    select catFluxDep (allFlags []) = some (∅ : Finset ModelResource) ∧
    Arch.flux ∉ archVersions (allFlags []) ∧
    mFluxReq ∈ catFluxDep.required_models ∧ mDepAll ∈ catFluxDep.deprecated_models := by
  decide

/-- C2 (amended): --all activates the architecture tags sd15, sdxl, illu
and illu_v (besides the always-active wildcard) but NOT flux, and the
optional categories default checkpoints, upscalers,
controlnet/ip-adapter/clip-vision and prefetch but NOT deprecated. -/
theorem all_preset_characterization (cat : Catalog) (ex : List (List Char))
    (m : ModelResource) :
    select cat (allFlags ex) = some (selectSet cat (allFlags ex)) ∧
    (m ∈ selectSet cat (allFlags ex) ↔
      (m ∈ cat.default_checkpoints
      ∨ (m ∈ cat.required_models ∧ m.arch ∈ archAllList)
      ∨ (m ∈ cat.required_models ∧ m.kind = ResourceKind.upscaler)
      ∨ m ∈ cat.upscale_models
      ∨ (m ∈ cat.optional_models ∧ m.kind ∈ adapterKinds ∧ m.arch ∈ archAllList)
      ∨ m ∈ cat.prefetch_models)
      ∧ m.id.string ∉ ex) := by
  constructor
  · simp [select, boolNat, allFlags, noFlags]
  · rw [mem_selectSet]
    simp only [allFlags, noFlags, archVersions_allFlags]
    simp
    tauto

/-- C3 counterexample: the selection of --deprecated alone is not a
subset of the selection of --all on a catalog with one deprecated
wildcard model. -/
theorem select_monotone_cex :
    select catDep depFlags = some ({mDepAll} : Finset ModelResource) ∧
    select catDep (allFlags []) = some (∅ : Finset ModelResource) ∧
    ¬ ({mDepAll} : Finset ModelResource) ⊆ (∅ : Finset ModelResource) := by
  decide

/-- C3 (amended): for every flag combination that sets neither flux nor
deprecated (and the same exclusion list), the computed selection is a
subset of the --all selection. -/
theorem select_monotone_all (cat : Catalog) (f : Flags) (sF : Finset ModelResource)
    (hflux : f.flux = false) (hdep : f.deprecated = false)
    (h : select cat f = some sF) :
    select cat (allFlags f.exclude) = some (selectSet cat (allFlags f.exclude)) ∧
    sF ⊆ selectSet cat (allFlags f.exclude) := by
  constructor
  · simp [select, boolNat, allFlags, noFlags]
  · intro m hm
    rw [select_eq_some h, mem_selectSet] at hm
    obtain ⟨hbig, hex⟩ := hm
    rw [mem_selectSet]
    refine ⟨?_, hex⟩
    have hsub := archVersions_sub f hflux
    rw [archVersions_allFlags]
    simp only [allFlags, noFlags]
    rcases hbig with ((((((((h1 | h2) | h3) | h4) | h5) | h6) | h7) | h8) | h9)
    · exact Or.inl (Or.inl (Or.inl (Or.inl (Or.inl (Or.inl (Or.inl (Or.inl
        ⟨h1.1, Or.inl trivial⟩)))))))
    · exact Or.inl (Or.inl (Or.inl (Or.inl (Or.inl (Or.inl (Or.inl (Or.inr
        ⟨by simp, h2.2.1, hsub _ h2.2.2⟩)))))))
    · rcases h3 with ⟨_, hhd⟩
      exact Or.inl (Or.inl (Or.inl (Or.inl (Or.inl (Or.inl (Or.inl (Or.inl
        ⟨List.mem_of_mem_head? hhd, Or.inl trivial⟩)))))))
    · exact Or.inl (Or.inl (Or.inl (Or.inl (Or.inl (Or.inl (Or.inl (Or.inl
        ⟨h4.2.1, Or.inl trivial⟩)))))))
    · exact Or.inl (Or.inl (Or.inl (Or.inl (Or.inr ⟨by simp, h5.2⟩))))
    · exact Or.inl (Or.inl (Or.inl (Or.inr ⟨by simp, h6.2⟩)))
    · exact Or.inl (Or.inl (Or.inr ⟨by simp, h7.2.1, h7.2.2.1, hsub _ h7.2.2.2⟩))
    · exact Or.inl (Or.inr ⟨by simp, h8.2⟩)
    · rw [hdep] at h9
      exact absurd h9.1 (by simp)

/-- C3 witness: the --sd15 selection on a one-model catalog is a subset
of the --all selection. -/
theorem select_monotone_all_w :
    select catSd (allFlags []) = some (selectSet catSd (allFlags [])) ∧
    ({mSd15} : Finset ModelResource) ⊆ selectSet catSd (allFlags []) :=
  select_monotone_all catSd sd15Flags {mSd15} rfl rfl (by decide)

/-- C4 (amended): for every file whose target extension is not already
".part" (so that the temporary path differs from the target), a
non-success HTTP status or an exception while streaming leaves no file
at the final target path: the rename onto the target happens only in
the success branch. -/
theorem failed_download_no_final (net : List Char → NetOutcome) (env : Option (List Char))
    (dest : List Char) (f : FileResource) (s : DLState)
    (hsuf : pathSuffix (joinPath dest f.path) ≠ partExt)
    (herr : (downloadFile net env dest false s f).2.isSome = true) :
    joinPath dest f.path ∉ (downloadFile net env dest false s f).1.fs := by
  have htemp := tempPath_ne (joinPath dest f.path) hsuf
  by_cases h1 : joinPath dest f.path ∈ s.fs
  · rw [downloadFile_eq_skip net env dest false s f h1] at herr
    simp at herr
  · rw [downloadFile_eq_net net env dest s f h1] at herr ⊢
    cases hn : net (map_url env f.url) with
    | httpError => exact h1
    | streamError =>
      intro hmem
      rcases mem_fsInsert.mp hmem with he | hin
      · exact htemp he.symm
      · exact h1 hin
    | success =>
      rw [hn] at herr
      simp at herr

/-- C4 witness: a streaming failure on "m.bin" leaves no file at the
target path. -/
theorem failed_download_no_final_w :
    pathSuffix (joinPath dDest fBin.path) ≠ partExt ∧
    (downloadFile netSE none dDest false st0 fBin).2.isSome = true ∧
    joinPath dDest fBin.path ∉ (downloadFile netSE none dDest false st0 fBin).1.fs :=
  ⟨by decide, by decide,
    failed_download_no_final netSE none dDest fBin st0 (by decide) (by decide)⟩

/-- C4 counterexample: for a file named "m.part" the temporary path IS
the target path, so a mid-stream failure leaves the partial file at the
final target path. -/
theorem failed_download_cex :
    (downloadFile netSE none dDest false st0 fPart).2 = some DLError.streamFail ∧
    joinPath dDest fPart.path ∈ (downloadFile netSE none dDest false st0 fPart).1.fs := by
  decide

/-- C5 counterexample: with_suffix(".part") REPLACES the extension, so
for a target already ending in ".part" the temporary path equals the
final target path, refuting the claimed distinctness. -/
theorem temp_path_cex :
    tempPath (joinPath dDest fPart.path) = joinPath dDest fPart.path := by
  decide

/-- C5 (amended): the temporary file is the target path with its
extension replaced by ".part" (appended when there is none); it is
distinct from the target whenever the target's extension is not already
".part", and the final name appears only when the per-file download
completed without an exception. -/
theorem temp_part_distinct_commit (net : List Char → NetOutcome) (env : Option (List Char))
    (dest : List Char) (f : FileResource) (s : DLState)
    (hsuf : pathSuffix (joinPath dest f.path) ≠ partExt) :
    tempPath (joinPath dest f.path) ≠ joinPath dest f.path ∧
    (joinPath dest f.path ∈ (downloadFile net env dest false s f).1.fs →
      joinPath dest f.path ∈ s.fs ∨ (downloadFile net env dest false s f).2 = none) := by
  have htemp := tempPath_ne _ hsuf
  refine ⟨htemp, ?_⟩
  by_cases h1 : joinPath dest f.path ∈ s.fs
  · intro _
    exact Or.inl h1
  · rw [downloadFile_eq_net net env dest s f h1]
    cases hn : net (map_url env f.url) with
    | httpError =>
      intro hmem
      exact Or.inl hmem
    | streamError =>
      intro hmem
      rcases mem_fsInsert.mp hmem with he | hin
      · exact absurd he.symm htemp
      · exact Or.inl hin
    | success =>
      intro _
      exact Or.inr rfl

/-- C5 witness: for "m.bin" the temporary path differs from the target
and a successful download is the only way the final name appears. -/
theorem temp_part_distinct_commit_w :
    tempPath (joinPath dDest fBin.path) ≠ joinPath dDest fBin.path ∧
    (joinPath dDest fBin.path ∈ (downloadFile netOK none dDest false st0 fBin).1.fs →
      joinPath dDest fBin.path ∈ st0.fs ∨
        (downloadFile netOK none dDest false st0 fBin).2 = none) :=
  temp_part_distinct_commit netOK none dDest fBin st0 (by decide)

/-- C6: with --minimal (no explicit checkpoint ids, no exclusions) the
selection is exactly the first default checkpoint plus the required
models tagged sd15 or with the wildcard tag, and contains exactly that
one default checkpoint; the hypotheses say the catalog has a first
default checkpoint and that no required model doubles as a default
checkpoint. -/
theorem minimal_selection (cat : Catalog) (c : ModelResource) (rest : List ModelResource)
    (hdef : cat.default_checkpoints = c :: rest)
    (hdisj : ∀ m ∈ cat.required_models, m ∉ cat.default_checkpoints) :
    select cat minimalFlags = some (insert c (cat.required_models.toFinset.filter
      (fun m => m.arch = Arch.all ∨ m.arch = Arch.sd15))) ∧
    (insert c (cat.required_models.toFinset.filter
      (fun m => m.arch = Arch.all ∨ m.arch = Arch.sd15))).filter
      (fun m => m ∈ cat.default_checkpoints) = {c} := by
  have hAV : archVersions minimalFlags = [Arch.all, Arch.sd15] := rfl
  have hsel : selectSet cat minimalFlags = insert c (cat.required_models.toFinset.filter
      (fun m => m.arch = Arch.all ∨ m.arch = Arch.sd15)) := by
    ext m
    rw [mem_selectSet, hAV]
    simp only [minimalFlags, noFlags, hdef]
    simp [Finset.mem_insert, Finset.mem_filter, eq_comm]
    tauto
  constructor
  · rw [show select cat minimalFlags = some (selectSet cat minimalFlags) from ?_, hsel]
    unfold select
    rw [hdef]
    simp [boolNat, minimalFlags, noFlags]
  · ext x
    simp only [Finset.mem_filter, Finset.mem_insert, Finset.mem_singleton, List.mem_toFinset]
    constructor
    · rintro ⟨hx | ⟨hxr, _⟩, hxd⟩
      · exact hx
      · exact absurd hxd (hdisj x hxr)
    · rintro rfl
      exact ⟨Or.inl rfl, by rw [hdef]; simp⟩

/-- C6 witness: on a catalog with one default checkpoint and required
models of wildcard, sd15 and sdxl architecture. -/
theorem minimal_selection_w :
    select catMin minimalFlags = some (insert ck0 (catMin.required_models.toFinset.filter
      (fun m => m.arch = Arch.all ∨ m.arch = Arch.sd15))) ∧
    (insert ck0 (catMin.required_models.toFinset.filter
      (fun m => m.arch = Arch.all ∨ m.arch = Arch.sd15))).filter
      (fun m => m ∈ catMin.default_checkpoints) = {ck0} :=
  minimal_selection catMin ck0 [] rfl (by decide)

/-- C7 counterexample: the temporary path of "a.bin" is the target path
of "a.part"; after a fully successful first run over both files, the
second run still issues a network request, because the rename of the
second file's download erased the first file's completed target. -/
theorem idempotent_cex :
    download netOK none dDest false files2 st0 = (stFiles2, none) ∧
    (download netOK none dDest false files2 stFiles2).1.requests
      = stFiles2.requests + 1 := by
  decide

/-- C7 (amended): a file whose target exists is skipped as a success
without any network request; and when no selected file's temporary path
collides with another's target path, a second run after a successful
run changes nothing and issues zero requests. -/
theorem skip_and_idempotent :
    (∀ (net : List Char → NetOutcome) (env : Option (List Char)) (dest : List Char)
      (dr : Bool) (s : DLState) (f : FileResource),
      joinPath dest f.path ∈ s.fs → downloadFile net env dest dr s f = (s, none)) ∧
    (∀ (net net2 : List Char → NetOutcome) (env : Option (List Char)) (dest : List Char)
      (files : List FileResource) (s s1 : DLState),
      (∀ f ∈ files, ∀ g ∈ files, tempPath (joinPath dest g.path) ≠ joinPath dest f.path) →
      download net env dest false files s = (s1, none) →
      download net2 env dest false files s1 = (s1, none)) := by
  constructor
  · intro net env dest dr s f h
    exact downloadFile_eq_skip net env dest dr s f h
  · intro net net2 env dest files s s1 hH hrun
    exact download_all_skip net2 env dest false files s1
      (download_targets_present net env dest files s s1 hH hrun)

/-- C7 witness: an existing target is skipped unchanged, and re-running
a completed single-file download changes nothing. -/
theorem skip_and_idempotent_w :
    downloadFile netOK none dDest false stHas fBin = (stHas, none) ∧
    download netOK none dDest false [fBin] stDone = (stDone, none) :=
  ⟨skip_and_idempotent.1 netOK none dDest false stHas fBin (by decide),
   skip_and_idempotent.2 netOK netOK none dDest [fBin] st0 stDone (by decide) (by decide)⟩

/-- C8: a model whose id string is in the exclusion list is never in the
final selection, whatever the other flags. -/
theorem excluded_never_selected (cat : Catalog) (f : Flags) (s : Finset ModelResource)
    (m : ModelResource) (h : select cat f = some s) (hm : m.id.string ∈ f.exclude) :
    m ∉ s := by
  intro hmem
  rw [select_eq_some h, mem_selectSet] at hmem
  exact hmem.2 hm

/-- C8 witness: excluding "ex" removes that default checkpoint from the
--all selection. -/
theorem excluded_never_selected_w :
    mExcl ∉ ({mKeep} : Finset ModelResource) :=
  excluded_never_selected catEx (allFlags [("ex".toList)]) {mKeep} mExcl
    (by decide) (by decide)

/-- C9 counterexample: str.replace substitutes EVERY occurrence of the
scheme+host+port string, not just the leading portion; on a URL whose
prefix string reappears in the path the mapped URL differs from the
claimed "rest unchanged" output. -/
theorem map_url_cex :
    map_url (some hostB) urlRep = urlRepOut ∧
    map_url (some hostB) urlRep ≠ hostB ++ restRep := by
  decide

/-- C9 (amended): when the override is set (non-empty), every occurrence
of the scheme+host+port string is replaced; in particular when that
string occurs nowhere in the remainder of the URL, exactly the leading
portion is substituted and the rest is unchanged; with the variable
unset the URL is returned unchanged. -/
theorem map_url_replaces_head (h rest url : List Char) (hh : h ≠ [])
    (hsplit : url = urlHead url ++ rest) (hni : ¬ urlHead url <:+: rest) :
    map_url (some h) url = h ++ rest ∧ map_url none url = url := by
  have hhead : urlHead url ≠ [] := by
    intro h0
    apply hni
    rw [h0]
    exact List.nil_infix
  constructor
  · simp only [map_url]
    rw [if_neg hh]
    set hd := urlHead url with hhd
    clear_value hd
    rw [hsplit]
    exact pyReplace_head hd rest h hhead hni
  · rfl

/-- C9 witness: a mirror override applied to an ordinary catalog URL
substitutes exactly the scheme+host part. -/
theorem map_url_replaces_head_w :
    map_url (some hostB) urlEx = hostB ++ restEx ∧ map_url none urlEx = urlEx :=
  map_url_replaces_head hostB restEx urlEx (by decide) (by decide) (by decide)

/-- C10: with none of the architecture flags set, the bulk --checkpoints
flag expands to the same checkpoint-id list as omitting it, so the
computed selection is identical. -/
theorem bulk_checkpoints_noop (cat : Catalog) (cl : List (List Char)) (f : Flags)
    (h15 : f.sd15 = false) (hxl : f.sdxl = false) (hfx : f.flux = false)
    (hil : f.illu = false) :
    expandCheckpoints cat cl true f.sd15 f.sdxl f.flux f.illu = cl ∧
    expandCheckpoints cat cl false f.sd15 f.sdxl f.flux f.illu = cl ∧
    select cat { f with checkpoints := expandCheckpoints cat cl true f.sd15 f.sdxl f.flux f.illu }
      = select cat { f with checkpoints := cl } := by
  rw [h15, hxl, hfx, hil]
  have hE : ∀ b, expandCheckpoints cat cl b false false false false = cl := by
    intro b
    simp [expandCheckpoints]
  exact ⟨hE true, hE false, by rw [hE true]⟩

/-- C10 witness: on a concrete catalog and checkpoint list. -/
theorem bulk_checkpoints_noop_w :
    expandCheckpoints catMin [("c0".toList)] true false false false false = [("c0".toList)] ∧
    expandCheckpoints catMin [("c0".toList)] false false false false false = [("c0".toList)] ∧
    select catMin { noFlags with
        checkpoints := expandCheckpoints catMin [("c0".toList)] true false false false false }
      = select catMin { noFlags with checkpoints := [("c0".toList)] } :=
  bulk_checkpoints_noop catMin [("c0".toList)] noFlags rfl rfl rfl rfl

end KritaModels
